import Mathlib

/-!
Verification of the extractive-summarization core of the text-summarizer
backend.  The core is the JavaScript function summarizeText(text, numSentences),
which appears three times in the sources (twice in src/api/index.js, once in
src/unnamed/part_000) with an identical algorithm:

  const textSentences = new natural.SentenceTokenizer().tokenize(text);
  if (textSentences.length <= numSentences) return text;
  const tfidf = new natural.TfIdf(); tfidf.addDocument(text);
  const sentenceScores = textSentences.map((sentence, index) =>
     ({ sentence, score: tfidf.tfidf(sentence, 0), index }));
  const topSentences = sentenceScores
      .sort((a, b) => b.score - a.score)
      .slice(0, numSentences)
      .sort((a, b) => a.index - b.index)
      .map(item => item.sentence);
  return topSentences.join(' ');

The tokenizer and the tf-idf model come from the external npm library
natural, whose code is not part of this repository; they are abstracted as
function parameters (tok : String → List String and
tfidf : String → String → ℚ, document first, then sentence).  A concrete
instance of each, modelled from the spec's contracts, is provided below for
evaluating theorems on concrete inputs.

JavaScript Array.prototype.sort is a stable sort (ECMAScript requires sort
stability); it is embedded as List.insertionSort, which Mathlib proves
stable (List.pair_sublist_insertionSort), with the preorder induced by the
numeric comparator.  Array.prototype.slice(0, end) is embedded as jsSlice,
including the from-the-end interpretation of a negative end argument.
numSentences is a JavaScript integer, embedded as Int.  The source default
value of numSentences is 3; the embedding passes it explicitly.
-/

namespace TextSummarizer

/-- An element of the sentenceScores array built in summarizeText: the
sentence string, its tf-idf score against the single-document corpus, and
its original index in the tokenized sentence list. -/
structure ScoredSentence where
  sentence : String
  score : ℚ
  index : Nat
deriving DecidableEq

/-- The total preorder induced by the first sort's comparator
(a, b) => b.score - a.score: a sorts no later than b iff b.score ≤ a.score
(descending by score); ties are resolved by sort stability. -/
def byScoreDesc (a b : ScoredSentence) : Prop := b.score ≤ a.score

/-- The total preorder induced by the second sort's comparator
(a, b) => a.index - b.index: ascending by original index. -/
def byIndexAsc (a b : ScoredSentence) : Prop := a.index ≤ b.index

instance : DecidableRel byScoreDesc :=
  fun a b => inferInstanceAs (Decidable (b.score ≤ a.score))

instance : DecidableRel byIndexAsc :=
  fun a b => inferInstanceAs (Decidable (a.index ≤ b.index))

instance : IsTotal ScoredSentence byScoreDesc := ⟨fun a b => le_total b.score a.score⟩

instance : IsTrans ScoredSentence byScoreDesc := ⟨fun _ _ _ hab hbc => le_trans hbc hab⟩

instance : IsTotal ScoredSentence byIndexAsc := ⟨fun a b => le_total a.index b.index⟩

instance : IsTrans ScoredSentence byIndexAsc := ⟨fun _ _ _ hab hbc => le_trans hab hbc⟩

/-- JavaScript Array.prototype.slice(0, stop) on a list: a nonnegative stop
takes the first stop elements (clamped to the length); a negative stop
counts from the end of the array (length + stop, clamped below at 0). -/
def jsSlice {α : Type} (stop : Int) (l : List α) : List α :=
  List.take (if stop < 0 then ((l.length : Int) + stop).toNat else stop.toNat) l

/-- The sentenceScores array of summarizeText:
textSentences.map((sentence, index) => ({ sentence, score: tfidf.tfidf(sentence, 0), index })).
The tfidf object, already loaded with the document as corpus entry 0, is
abstracted as a function from a sentence to its rational score. -/
def sentenceScores (tfidf : String → ℚ) (textSentences : List String) :
    List ScoredSentence :=
  textSentences.enum.map fun p => ⟨p.2, tfidf p.2, p.1⟩

/-- The scored sentences surviving selection, in final (original-index)
order: sort by score descending (stable), slice(0, numSentences), then sort
by index ascending.  This is the sort/slice/sort chain of summarizeText
before the final .map(item => item.sentence). -/
def selectedScored (tok : String → List String) (tfidf : String → String → ℚ)
    (text : String) (numSentences : Int) : List ScoredSentence :=
  List.insertionSort byIndexAsc
    (jsSlice numSentences
      (List.insertionSort byScoreDesc (sentenceScores (tfidf text) (tok text))))

/-- The topSentences array of summarizeText: the selected scored sentences
mapped to their sentence strings. -/
def topSentences (tok : String → List String) (tfidf : String → String → ℚ)
    (text : String) (numSentences : Int) : List String :=
  (selectedScored tok tfidf text numSentences).map (·.sentence)

/-- The function summarizeText(text, numSentences) from src/api/index.js
lines 19-49 (the try/catch there only logs and rethrows, so it does not
change the value computed): tokenize, short-circuit when there are at most
numSentences sentences, otherwise score, select and rejoin with single
spaces. -/
def summarizeText (tok : String → List String) (tfidf : String → String → ℚ)
    (text : String) (numSentences : Int) : String :=
  let textSentences := tok text
  if (textSentences.length : Int) ≤ numSentences then
    text
  else
    String.intercalate " " (topSentences tok tfidf text numSentences)

/-- The scored sentences composing the returned Summary: on the
short-circuit path all sentences of the document (in original order), on
the truncation path the selected ones. -/
def summaryScored (tok : String → List String) (tfidf : String → String → ℚ)
    (text : String) (numSentences : Int) : List ScoredSentence :=
  if ((tok text).length : Int) ≤ numSentences then
    sentenceScores (tfidf text) (tok text)
  else
    selectedScored tok tfidf text numSentences

/-- summarizeText as written in src/unnamed/part_000 lines 12-37: the same
algorithm text as the src/api/index.js copy, without the enclosing
try/catch of that copy. -/
def summarizeText_part000 (tok : String → List String) (tfidf : String → String → ℚ)
    (text : String) (numSentences : Int) : String :=
  let textSentences := tok text
  if (textSentences.length : Int) ≤ numSentences then
    text
  else
    let scored := textSentences.enum.map
      fun p => (⟨p.2, tfidf text p.2, p.1⟩ : ScoredSentence)
    let top := (List.insertionSort byIndexAsc
      (jsSlice numSentences (List.insertionSort byScoreDesc scored))).map (·.sentence)
    String.intercalate " " top

/-- summarizeText as written the second time in src/api/index.js, lines
242-272 (the file holds two near-duplicate handler modules; this is the
second module's copy, identical in algorithm text, again inside a
log-and-rethrow try/catch). -/
def summarizeText_api2 (tok : String → List String) (tfidf : String → String → ℚ)
    (text : String) (numSentences : Int) : String :=
  let textSentences := tok text
  if (textSentences.length : Int) ≤ numSentences then
    text
  else
    let scored := textSentences.enum.map
      fun p => (⟨p.2, tfidf text p.2, p.1⟩ : ScoredSentence)
    let top := (List.insertionSort byIndexAsc
      (jsSlice numSentences (List.insertionSort byScoreDesc scored))).map (·.sentence)
    String.intercalate " " top

/-! Concrete models of the external natural library collaborators, used to
evaluate the theorems on concrete inputs. -/

/-- Terminal punctuation per the spec's Sentence Segmenter contract. -/
def isTerminal (c : Char) : Bool := c = '.' || c = '!' || c = '?'

/-- Splits a character stream into sentence chunks, cutting after each
terminal punctuation mark; a trailing chunk without terminal punctuation is
itself a sentence; an empty input yields no sentences. -/
def splitSentencesAux : List Char → List Char → List (List Char)
  | [], [] => []
  | [], acc => [acc.reverse]
  | c :: cs, acc =>
    if isTerminal c then ((c :: acc).reverse) :: splitSentencesAux cs []
    else splitSentencesAux cs (c :: acc)

/-- Modelled from the spec: the sentence segmenter of the external natural
library (natural.SentenceTokenizer, not part of this repository's sources).
Follows the contract of spec section 4.1: deterministic punctuation-based
segmentation on the terminal marks, every input accepted, text with no
terminal punctuation treated as one sentence, empty input yielding an empty
sequence. -/
def specTokenize (text : String) : List String :=
  (splitSentencesAux text.data []).map fun cs => String.mk cs

/-- Splits a character stream into whitespace-separated words. -/
def splitWordsAux : List Char → List Char → List (List Char)
  | [], [] => []
  | [], acc => [acc.reverse]
  | c :: cs, acc =>
    if c = ' ' then
      (if acc = [] then splitWordsAux cs [] else acc.reverse :: splitWordsAux cs [])
    else splitWordsAux cs (c :: acc)

/-- Modelled from the spec: the degenerate single-document tf-idf scorer of
the external natural library (natural.TfIdf, not part of this repository's
sources).  Follows the contract of spec section 4.2: a term-frequency model
built over the document as the sole corpus entry (idf degenerates to a
constant factor, here 1), each sentence scored by the aggregate frequency
of the terms it contains; terms absent from the model contribute 0. -/
def specTfIdf (doc sentence : String) : ℚ :=
  @Nat.cast ℚ _
    (((splitWordsAux sentence.data []).map
      (fun w => (splitWordsAux doc.data []).count w)).sum)

/-! Helper lemmas about the pipeline. -/

theorem summarizeText_eq_text (tok : String → List String)
    (tfidf : String → String → ℚ) (text : String) (n : Int)
    (h : ((tok text).length : Int) ≤ n) :
    summarizeText tok tfidf text n = text := by
  unfold summarizeText
  simp [h]

theorem summarizeText_eq_join (tok : String → List String)
    (tfidf : String → String → ℚ) (text : String) (n : Int)
    (h : ¬ ((tok text).length : Int) ≤ n) :
    summarizeText tok tfidf text n =
      String.intercalate " " (topSentences tok tfidf text n) := by
  unfold summarizeText
  simp [h]

theorem sentenceScores_length (tfidf : String → ℚ) (l : List String) :
    (sentenceScores tfidf l).length = l.length := by
  simp [sentenceScores, List.enum_length]

theorem sentenceScores_map_index (tfidf : String → ℚ) (l : List String) :
    (sentenceScores tfidf l).map (·.index) = List.range l.length := by
  unfold sentenceScores
  rw [List.map_map]
  exact List.enum_map_fst l

theorem jsSlice_nonneg (stop : Int) (h : 0 ≤ stop) {α : Type} (l : List α) :
    jsSlice stop l = List.take stop.toNat l := by
  unfold jsSlice
  rw [if_neg (by omega)]

theorem selectedScored_length (tok : String → List String)
    (tfidf : String → String → ℚ) (text : String) (n : Int) (h : 0 ≤ n) :
    (selectedScored tok tfidf text n).length =
      min n.toNat (tok text).length := by
  unfold selectedScored
  rw [jsSlice_nonneg n h, List.length_insertionSort, List.length_take,
    List.length_insertionSort, sentenceScores_length]

theorem sentenceScores_get (tfidf : String → ℚ) (l : List String) (k : Nat)
    (hk : k < (sentenceScores tfidf l).length) :
    (sentenceScores tfidf l).get ⟨k, hk⟩ =
      ⟨l.get ⟨k, by rw [sentenceScores_length] at hk; exact hk⟩,
        tfidf (l.get ⟨k, by rw [sentenceScores_length] at hk; exact hk⟩), k⟩ := by
  unfold sentenceScores at hk ⊢
  simp [List.get_eq_getElem, List.getElem_map, List.getElem_enum]

theorem sentenceScores_nodup (tfidf : String → ℚ) (l : List String) :
    (sentenceScores tfidf l).Nodup :=
  List.Nodup.of_map (fun s : ScoredSentence => s.index)
    (by rw [sentenceScores_map_index]; exact List.nodup_range _)

theorem selectedScored_map_index_nodup (tok : String → List String)
    (tfidf : String → String → ℚ) (text : String) (n : Int) :
    ((selectedScored tok tfidf text n).map (·.index)).Nodup := by
  have hnd0 : ((sentenceScores (tfidf text) (tok text)).map (·.index)).Nodup := by
    rw [sentenceScores_map_index]
    exact List.nodup_range _
  have hperm1 :=
    (List.perm_insertionSort byScoreDesc
      (sentenceScores (tfidf text) (tok text))).map
        (fun s : ScoredSentence => s.index)
  have hnd1 := hperm1.nodup_iff.mpr hnd0
  have hsub : List.Sublist
      (jsSlice n (List.insertionSort byScoreDesc
        (sentenceScores (tfidf text) (tok text))))
      (List.insertionSort byScoreDesc (sentenceScores (tfidf text) (tok text))) := by
    unfold jsSlice
    exact List.take_sublist _ _
  have hnd2 := List.Nodup.sublist
    (List.Sublist.map (fun s : ScoredSentence => s.index) hsub) hnd1
  have hperm3 :=
    (List.perm_insertionSort byIndexAsc
      (jsSlice n (List.insertionSort byScoreDesc
        (sentenceScores (tfidf text) (tok text))))).map
          (fun s : ScoredSentence => s.index)
  unfold selectedScored
  exact hperm3.nodup_iff.mpr hnd2

theorem pair_sublist_of_get {α : Type} :
    ∀ (l : List α) (i j : Nat) (hij : i < j) (hj : j < l.length),
    List.Sublist [l.get ⟨i, lt_trans hij hj⟩, l.get ⟨j, hj⟩] l := by
  intro l
  induction l with
  | nil =>
    intro i j hij hj
    simp at hj
  | cons a l ih =>
    intro i j hij hj
    cases i with
    | zero =>
      cases j with
      | zero => omega
      | succ j =>
        exact (List.singleton_sublist.mpr
          (List.get_mem l j (by simp at hj; omega))).cons₂ a
    | succ i =>
      cases j with
      | zero => omega
      | succ j =>
        exact (ih i j (by omega) (by simp at hj; omega)).cons a

theorem mem_take_of_pair_sublist {α : Type} {a b : α} :
    ∀ {l : List α} {k : Nat}, List.Sublist [a, b] l → l.Nodup →
      b ∈ l.take k → a ∈ l.take k := by
  intro l
  induction l with
  | nil =>
    intro k h _ _
    simp at h
  | cons c l ih =>
    intro k h hnd hb
    cases k with
    | zero => simp at hb
    | succ k =>
      rw [List.take_succ_cons] at hb ⊢
      cases h with
      | cons _ h2 =>
        rcases List.mem_cons.mp hb with hbc | hbl
        · exact absurd (hbc ▸ (h2.subset (by simp) : b ∈ l))
            (List.nodup_cons.mp hnd).1
        · exact List.mem_cons_of_mem c (ih h2 (List.nodup_cons.mp hnd).2 hbl)
      | cons₂ _ h2 =>
        exact List.mem_cons_self _ _

theorem splitSentencesAux_of_no_terminal (cs : List Char) :
    ∀ acc : List Char, (∀ c ∈ cs, isTerminal c = false) →
    splitSentencesAux cs acc =
      if cs = [] ∧ acc = [] then [] else [acc.reverse ++ cs] := by
  induction cs with
  | nil =>
    intro acc _
    cases acc with
    | nil => rfl
    | cons a as => simp [splitSentencesAux]
  | cons c cs ih =>
    intro acc h
    have hc : isTerminal c = false := h c (by simp)
    have hrest : ∀ x ∈ cs, isTerminal x = false := fun x hx => h x (by simp [hx])
    rw [show splitSentencesAux (c :: cs) acc = splitSentencesAux cs (c :: acc) by
      simp [splitSentencesAux, hc]]
    rw [ih (c :: acc) hrest]
    simp

theorem specTokenize_empty : specTokenize "" = [] := rfl

theorem specTokenize_no_terminal (text : String)
    (h : ∀ c ∈ text.data, isTerminal c = false) :
    specTokenize text = if text.data = [] then [] else [String.mk text.data] := by
  unfold specTokenize
  rw [splitSentencesAux_of_no_terminal text.data [] h]
  by_cases hd : text.data = []
  · simp [hd]
  · simp [hd]

/-! The claims. -/

/-- C1: for every tokenizer and scorer, every text and every numSentences ≥ 1,
the number of sentences composing the returned Summary equals
min(numSentences, total sentence count of the segmented text), and the
returned string is the input itself on the short-circuit path and the
space-join of exactly those sentences on the truncation path. -/
theorem summary_bounded_output (tok : String → List String)
    (tfidf : String → String → ℚ) (text : String) (n : Int) (hn : 1 ≤ n) :
    (summaryScored tok tfidf text n).length = min n.toNat (tok text).length ∧
    summarizeText tok tfidf text n =
      (if ((tok text).length : Int) ≤ n then text
       else String.intercalate " "
         ((summaryScored tok tfidf text n).map (·.sentence))) := by
  constructor
  · unfold summaryScored
    by_cases h : ((tok text).length : Int) ≤ n
    · rw [if_pos h, sentenceScores_length]
      omega
    · rw [if_neg h]
      exact selectedScored_length tok tfidf text n (by omega)
  · by_cases h : ((tok text).length : Int) ≤ n
    · rw [summarizeText_eq_text tok tfidf text n h, if_pos h]
    · rw [summarizeText_eq_join tok tfidf text n h, if_neg h]
      unfold summaryScored
      rw [if_neg h]
      rfl

/-- Witness for summary_bounded_output at text "A. B. C." and numSentences 2. -/
theorem summary_bounded_output_witness :
    (1 : Int) ≤ 2 ∧
    ((summaryScored specTokenize specTfIdf "A. B. C." 2).length =
        min (2 : Int).toNat (specTokenize "A. B. C.").length ∧
      summarizeText specTokenize specTfIdf "A. B. C." 2 =
        (if ((specTokenize "A. B. C.").length : Int) ≤ 2 then "A. B. C."
         else String.intercalate " "
           ((summaryScored specTokenize specTfIdf "A. B. C." 2).map (·.sentence)))) :=
  ⟨by decide, summary_bounded_output specTokenize specTfIdf "A. B. C." 2 (by decide)⟩

/-- C2: whenever the segmented sentence count is at most numSentences,
summarizeText returns the input text object itself, unchanged (the code
returns the text variable, with no re-joining). -/
theorem summary_short_input_unchanged (tok : String → List String)
    (tfidf : String → String → ℚ) (text : String) (n : Int)
    (h : ((tok text).length : Int) ≤ n) :
    summarizeText tok tfidf text n = text :=
  summarizeText_eq_text tok tfidf text n h

/-- Witness for summary_short_input_unchanged at text "A. B." and
numSentences 3. -/
theorem summary_short_input_unchanged_witness :
    ((specTokenize "A. B.").length : Int) ≤ 3 ∧
    summarizeText specTokenize specTfIdf "A. B." 3 = "A. B." :=
  ⟨by decide, summary_short_input_unchanged specTokenize specTfIdf "A. B." 3 (by decide)⟩

/-- C3: for every numSentences ≥ 1 the original indices of the sentences
composing the Summary form a strictly increasing sequence, regardless of
how the sentences rank by score. -/
theorem summary_order_preserved (tok : String → List String)
    (tfidf : String → String → ℚ) (text : String) (n : Int) (hn : 1 ≤ n) :
    List.Pairwise (· < ·) ((summaryScored tok tfidf text n).map (·.index)) := by
  unfold summaryScored
  by_cases h : ((tok text).length : Int) ≤ n
  · rw [if_pos h, sentenceScores_map_index]
    exact List.pairwise_lt_range _
  · rw [if_neg h]
    have hsorted : List.Sorted byIndexAsc (selectedScored tok tfidf text n) := by
      unfold selectedScored
      exact List.sorted_insertionSort byIndexAsc _
    have hle : List.Sorted (· ≤ ·)
        ((selectedScored tok tfidf text n).map (·.index)) :=
      List.pairwise_map.mpr hsorted
    exact List.Sorted.lt_of_le hle (selectedScored_map_index_nodup tok tfidf text n)

/-- Witness for summary_order_preserved at text "A. B. C." and
numSentences 2. -/
theorem summary_order_preserved_witness :
    (1 : Int) ≤ 2 ∧
    List.Pairwise (· < ·)
      ((summaryScored specTokenize specTfIdf "A. B. C." 2).map (·.index)) :=
  ⟨by decide, summary_order_preserved specTokenize specTfIdf "A. B. C." 2 (by decide)⟩

/-- C4: tie-break stability of the top-K selection.  The sentence at
position i has original index i, the one at position j has original index
j; if i < j, their scores are equal and the sentence at position j survives
the slice of the score-sorted list, then the sentence at position i (the
lower original index) survives it as well: the stable sort keeps equal-score
sentences in ascending index order, so the lower index wins the tie. -/
theorem tie_break_lower_index (tok : String → List String)
    (tfidf : String → String → ℚ) (text : String) (n : Int) (i j : Nat)
    (hij : i < j) (hj : j < (sentenceScores (tfidf text) (tok text)).length)
    (hsc : ((sentenceScores (tfidf text) (tok text)).get ⟨i, lt_trans hij hj⟩).score =
      ((sentenceScores (tfidf text) (tok text)).get ⟨j, hj⟩).score)
    (hsel : (sentenceScores (tfidf text) (tok text)).get ⟨j, hj⟩ ∈
      jsSlice n (List.insertionSort byScoreDesc (sentenceScores (tfidf text) (tok text)))) :
    ((sentenceScores (tfidf text) (tok text)).get ⟨i, lt_trans hij hj⟩).index = i ∧
    ((sentenceScores (tfidf text) (tok text)).get ⟨j, hj⟩).index = j ∧
    (sentenceScores (tfidf text) (tok text)).get ⟨i, lt_trans hij hj⟩ ∈
      jsSlice n (List.insertionSort byScoreDesc (sentenceScores (tfidf text) (tok text))) := by
  refine ⟨?_, ?_, ?_⟩
  · rw [sentenceScores_get]
  · rw [sentenceScores_get]
  · have hpair := pair_sublist_of_get (sentenceScores (tfidf text) (tok text)) i j hij hj
    have hab : byScoreDesc
        ((sentenceScores (tfidf text) (tok text)).get ⟨i, lt_trans hij hj⟩)
        ((sentenceScores (tfidf text) (tok text)).get ⟨j, hj⟩) := hsc.ge
    have hsorted := List.pair_sublist_insertionSort hab hpair
    have hnd : (List.insertionSort byScoreDesc
        (sentenceScores (tfidf text) (tok text))).Nodup :=
      (List.perm_insertionSort byScoreDesc _).nodup_iff.mpr
        (sentenceScores_nodup _ _)
    unfold jsSlice at hsel ⊢
    exact mem_take_of_pair_sublist hsorted hnd hsel

/-- Witness for tie_break_lower_index at text "A. B. C." (three sentences of
equal score) and numSentences 2, positions 0 and 1. -/
theorem tie_break_lower_index_witness :
    1 < (sentenceScores (specTfIdf "A. B. C.") (specTokenize "A. B. C.")).length ∧
    (sentenceScores (specTfIdf "A. B. C.") (specTokenize "A. B. C.")).get ⟨0, by decide⟩ ∈
      jsSlice 2 (List.insertionSort byScoreDesc
        (sentenceScores (specTfIdf "A. B. C.") (specTokenize "A. B. C."))) :=
  ⟨by decide,
    (tie_break_lower_index specTokenize specTfIdf "A. B. C." 2 0 1 (by decide)
      (by decide) (by decide) (by decide)).2.2⟩

/-- C5 counterexample: the code performs no validation of numSentences.  At
text "A. B." (two sentences) and numSentences = 0 summarizeText returns the
empty string — a clamped, empty summary — instead of rejecting the call
with an InvalidArgument error; no rejection path exists in the function. -/
theorem nonpositive_returns_summary_counterexample :
    summarizeText specTokenize specTfIdf "A. B." 0 = "" := by decide

/-- C5 amended: for numSentences ≤ 0 and any text with at least one
sentence, summarizeText does not reject: it takes the truncation path and
returns the join of the sliced selection; in particular for
numSentences = 0 it returns the empty string. -/
theorem nonpositive_no_validation (tok : String → List String)
    (tfidf : String → String → ℚ) (text : String) (n : Int)
    (hn : n ≤ 0) (hlen : 1 ≤ (tok text).length) :
    summarizeText tok tfidf text n =
      String.intercalate " " (topSentences tok tfidf text n) ∧
    summarizeText tok tfidf text 0 = "" := by
  constructor
  · exact summarizeText_eq_join tok tfidf text n (by omega)
  · rw [summarizeText_eq_join tok tfidf text 0 (by omega)]
    unfold topSentences selectedScored
    rw [jsSlice_nonneg 0 le_rfl]
    simp
    rfl

/-- Witness for nonpositive_no_validation at text "A. B." and
numSentences 0. -/
theorem nonpositive_no_validation_witness :
    (0 : Int) ≤ 0 ∧ 1 ≤ (specTokenize "A. B.").length ∧
    (summarizeText specTokenize specTfIdf "A. B." 0 =
        String.intercalate " " (topSentences specTokenize specTfIdf "A. B." 0) ∧
      summarizeText specTokenize specTfIdf "A. B." 0 = "") :=
  ⟨by decide, by decide,
    nonpositive_no_validation specTokenize specTfIdf "A. B." 0 (by decide) (by decide)⟩

/-- C6: on the empty string the tokenizer yields an empty sentence sequence
(0 sentences ≤ numSentences for any numSentences ≥ 1), so summarizeText
takes the pass-through path and returns the empty string, with no error. -/
theorem empty_input_passthrough (tok : String → List String)
    (tfidf : String → String → ℚ) (n : Int) (htok : tok "" = []) (hn : 1 ≤ n) :
    summarizeText tok tfidf "" n = "" := by
  apply summarizeText_eq_text
  rw [htok]
  simp only [List.length_nil, Nat.cast_zero]
  omega

/-- Witness for empty_input_passthrough at numSentences 3 with the
spec-modelled tokenizer. -/
theorem empty_input_passthrough_witness :
    specTokenize "" = [] ∧ (1 : Int) ≤ 3 ∧
    summarizeText specTokenize specTfIdf "" 3 = "" :=
  ⟨rfl, by decide, empty_input_passthrough specTokenize specTfIdf 3 rfl (by decide)⟩

/-- C7: a text containing none of the terminal punctuation marks is
segmented as a single sentence (when nonempty), and summarizeText returns
the input unchanged for every numSentences ≥ 1. -/
theorem no_terminal_single_sentence (tfidf : String → String → ℚ)
    (text : String) (n : Int)
    (h : ∀ c ∈ text.data, isTerminal c = false) (hn : 1 ≤ n) :
    (text ≠ "" → (specTokenize text).length = 1) ∧
    summarizeText specTokenize tfidf text n = text := by
  have htok := specTokenize_no_terminal text h
  constructor
  · intro hne
    have hd : text.data ≠ [] := by
      intro hdata
      apply hne
      cases text with
      | mk d =>
        simp only at hdata
        rw [hdata]
    rw [htok, if_neg hd]
    rfl
  · apply summarizeText_eq_text
    rw [htok]
    by_cases hd : text.data = []
    · rw [if_pos hd]
      simp only [List.length_nil, Nat.cast_zero]
      omega
    · rw [if_neg hd]
      simp only [List.length_singleton, Nat.cast_one]
      omega

/-- Witness for no_terminal_single_sentence at text "hello world" and
numSentences 1. -/
theorem no_terminal_single_sentence_witness :
    (∀ c ∈ ("hello world" : String).data, isTerminal c = false) ∧
    (("hello world" : String) ≠ "" → (specTokenize "hello world").length = 1) ∧
    summarizeText specTokenize specTfIdf "hello world" 1 = "hello world" :=
  ⟨by decide,
    (no_terminal_single_sentence specTfIdf "hello world" 1 (by decide) (by decide)).1,
    (no_terminal_single_sentence specTfIdf "hello world" 1 (by decide) (by decide)).2⟩

/-- C8: on the truncation path (sentence count exceeds numSentences) the
returned Summary is exactly the selected sentences joined with a single
literal space between consecutive sentences, the selected list being
ordered ascending by original index. -/
theorem truncation_path_join (tok : String → List String)
    (tfidf : String → String → ℚ) (text : String) (n : Int)
    (h : n < ((tok text).length : Int)) :
    summarizeText tok tfidf text n =
      String.intercalate " " ((selectedScored tok tfidf text n).map (·.sentence)) ∧
    List.Sorted byIndexAsc (selectedScored tok tfidf text n) := by
  constructor
  · rw [summarizeText_eq_join tok tfidf text n (by omega)]
    rfl
  · unfold selectedScored
    exact List.sorted_insertionSort byIndexAsc _

/-- Witness for truncation_path_join at text "A. B. C." and numSentences 2. -/
theorem truncation_path_join_witness :
    (2 : Int) < ((specTokenize "A. B. C.").length : Int) ∧
    summarizeText specTokenize specTfIdf "A. B. C." 2 =
      String.intercalate " "
        ((selectedScored specTokenize specTfIdf "A. B. C." 2).map (·.sentence)) :=
  ⟨by decide, (truncation_path_join specTokenize specTfIdf "A. B. C." 2 (by decide)).1⟩

/-- C9: summarizeText is deterministic — two calls with equal text and equal
numSentences (and the same tokenizer and scorer functions, which are pure)
return equal output strings; the embedding is a pure function with no source
of randomness. -/
theorem summarize_deterministic (tok : String → List String)
    (tfidf : String → String → ℚ) (t s : String) (m n : Int)
    (ht : t = s) (hn : m = n) :
    summarizeText tok tfidf t m = summarizeText tok tfidf s n := by
  rw [ht, hn]

/-- Witness for summarize_deterministic at text "A. B." and numSentences 3. -/
theorem summarize_deterministic_witness :
    ("A. B." : String) = "A. B." ∧
    summarizeText specTokenize specTfIdf "A. B." 3 =
      summarizeText specTokenize specTfIdf "A. B." 3 :=
  ⟨rfl, summarize_deterministic specTokenize specTfIdf "A. B." "A. B." 3 3 rfl rfl⟩

/-- C10: the three source copies of summarizeText (src/unnamed/part_000
lines 12-37 and the two copies in src/api/index.js) are the same function:
for every tokenizer, scorer, text and numSentences they return equal
output strings. -/
theorem summarize_copies_equal :
    summarizeText_part000 = summarizeText ∧ summarizeText_api2 = summarizeText :=
  ⟨rfl, rfl⟩

end TextSummarizer
